import Mathlib

/-!
Verification development for the block access layer of go-ipfs:
the `block` subcommands (stat/get/put/rm) in `core/commands/block.go`
and the `cat` command.  Pure functions of the Go source are embedded as
Lean functions; the injected collaborators (CID decoding, path
resolution, pinning) are passed in as function parameters; machine
integers (`uint64` lengths) are modelled as `Nat` with an explicit
`% 2^64` where the source performs wrapping arithmetic.
-/

namespace GoIpfs

/-- Error taxonomy of the embedded operations (spec section 7 names for
the `fmt.Errorf` values raised by the Go source). -/
inductive Err where
  | EmptyKey
  | DecodeError (s : String)
  | NotFound
  | UnrecognizedFormat (s : String)
  | UnrecognizedMhtype (s : String)
  | UnsupportedHashFunction
  | InvalidHashLength
  | InvalidVersion
  | InvalidContentId (s : String)
  | ResolveFailed (s : String)
deriving DecidableEq

/-- Codec code for raw blocks (`cid.Raw` in go-cid). -/
def Raw : Nat := 0x55

/-- Codec code for dag-protobuf (`cid.DagProtobuf` in go-cid). -/
def DagProtobuf : Nat := 0x70

/-- Codec code for dag-cbor (`cid.DagCBOR` in go-cid). -/
def DagCBOR : Nat := 0x71

/-- Multihash function code of sha1 (`mh.SHA1`, 0x11). -/
def mhSHA1 : Nat := 0x11

/-- Multihash function code of sha2-256 (`mh.SHA2_256`, 0x12), the
default 256-bit hash function. -/
def mhSHA2_256 : Nat := 0x12

/-- Multihash function code of sha2-512 (`mh.SHA2_512`, 0x13). -/
def mhSHA2_512 : Nat := 0x13

/-- Modelled from the spec: the fixed registry of supported hash
function names (`mh.Names` of go-multihash, which is not under src/),
restricted to representative members: the default `sha2-256` and two
other registered functions. -/
def mhLookup (name : String) : Option Nat :=
  if name = "sha1" then some mhSHA1
  else if name = "sha2-256" then some mhSHA2_256
  else if name = "sha2-512" then some mhSHA2_512
  else none

/-- Modelled from the spec: the natural digest length (in bytes) of
each registered hash function; 0 marks an unregistered code. -/
def mhNatural (t : Nat) : Nat :=
  if t = mhSHA1 then 20
  else if t = mhSHA2_256 then 32
  else if t = mhSHA2_512 then 64
  else 0

/-- Modelled from the spec: the digest computation of the registered
hash functions (external go-multihash code).  The only properties the
spec relies on are determinism (a Lean function is deterministic by
construction) and that the full digest has the function's natural
length; the byte values are an executable stand-in. -/
def hashFull (t : Nat) (data : List Nat) : List Nat :=
  (List.range (mhNatural t)).map
    (fun i => data.foldl (fun a b => (a + b) % 256) ((i + t) % 256))

/-- Content identifier: version, codec, hash function code, digest
(`cid.Cid` of go-cid). -/
structure Cid where
  version : Nat
  codec : Nat
  mhType : Nat
  digest : List Nat
deriving DecidableEq

/-- The non-digest template of an identifier (`cid.Prefix` of go-cid):
version, codec, hash function code and requested hash length, where
length -1 is the sentinel for the natural digest length. -/
structure CidPrefix where
  Version : Nat
  Codec : Nat
  MhType : Nat
  MhLength : Int
deriving DecidableEq

/-- Modelled from the spec: `Prefix.Sum` of go-cid (not under src/), the
CIDBuilder contract of spec section 4.1: validate version, validate the
hash function, resolve the hash length (sentinel -1 becomes the natural
digest length, any other length is used verbatim, negative or oversized
lengths are invalid), compute the digest over the input bytes, and
assemble the identifier — where version 0 forces codec dag-protobuf
regardless of the codec supplied in the template. -/
def prefixSum (p : CidPrefix) (data : List Nat) : Except Err Cid :=
  if p.Version ≠ 0 ∧ p.Version ≠ 1 then Except.error Err.InvalidVersion
  else if mhNatural p.MhType = 0 then Except.error Err.UnsupportedHashFunction
  else
    let n : Int := if p.MhLength = -1 then (mhNatural p.MhType : Int) else p.MhLength
    if n < 0 ∨ (mhNatural p.MhType : Int) < n then Except.error Err.InvalidHashLength
    else
      let digest := (hashFull p.MhType data).take n.toNat
      if p.Version = 0 then Except.ok ⟨0, DagProtobuf, p.MhType, digest⟩
      else Except.ok ⟨1, p.Codec, p.MhType, digest⟩

/-- Digest length of a successful build result (observation helper). -/
def okDigestLength (r : Except Err Cid) : Option Nat :=
  match r with
  | Except.ok c => some c.digest.length
  | Except.error _ => none

/-- Hash function code of a successful build result (observation
helper). -/
def okMhType (r : Except Err Cid) : Option Nat :=
  match r with
  | Except.ok c => some c.mhType
  | Except.error _ => none

/-- The block store: an association of identifiers to raw block bytes
(the injected store collaborator, observed through get/add/delete). -/
structure Store where
  blocks : List (Cid × List Nat)
deriving DecidableEq

/-- Lookup of a key in an association list of blocks. -/
def lookupBlocks (c : Cid) : List (Cid × List Nat) → Option (List Nat)
  | [] => none
  | p :: t => if p.1 = c then some p.2 else lookupBlocks c t

/-- Store lookup. -/
def Store.lookup (st : Store) (c : Cid) : Option (List Nat) :=
  lookupBlocks c st.blocks

/-- Store membership. -/
def Store.contains (st : Store) (c : Cid) : Bool :=
  (st.lookup c).isSome

/-- Removal of a key from an association list of blocks. -/
def deleteBlocks (c : Cid) : List (Cid × List Nat) → List (Cid × List Nat)
  | [] => []
  | p :: t => if p.1 = c then deleteBlocks c t else p :: deleteBlocks c t

/-- Store deletion (`DeleteBlock`): removes the entries of the given
identifier. -/
def Store.delete (st : Store) (c : Cid) : Store :=
  ⟨deleteBlocks c st.blocks⟩

/-- Store insertion (`AddBlock`): stores the block under its identifier
(idempotent: an already present identifier is left as is). -/
def Store.add (st : Store) (c : Cid) (data : List Nat) : Store :=
  if st.contains c then st else ⟨st.blocks ++ [(c, data)]⟩

/-- The format switch of `blockPutCmd.Run` (block.go lines 146-160):
`pref.Version` starts at 1, and the switch on the `format` option sets
the codec — with `"v0"` additionally resetting the version to 0 — or
falls through to `nil` for an unrecognized format string. -/
def formatSwitch (format : String) : Option (Nat × Nat) :=
  if format = "cbor" then some (1, DagCBOR)
  else if format = "protobuf" then some (1, DagProtobuf)
  else if format = "raw" then some (1, Raw)
  else if format = "v0" then some (0, DagProtobuf)
  else none

deriving instance DecidableEq for Except

/-- Observable outcome of one `block put` run: the result (identifier
or error), the number of digest computations performed, and the store
afterwards. -/
structure PutOut where
  result : Except Err Cid
  digests : Nat
  store : Store
deriving DecidableEq

/-- The `Run` of `blockPutCmd` (block.go lines 118-200): resolve the
format switch (error: unrecognized format), look the `mhtype` option up
in the registry (error: unrecognized multihash function), set
`pref.MhLength` to the `mhlen` option verbatim, build the identifier
with `pref.Sum(data)` and add the block to the store.  Validation
errors are raised before any digest is computed and before any store
write. -/
def blockPutRun (format mhtype : String) (mhlen : Int) (data : List Nat)
    (st : Store) : PutOut :=
  match formatSwitch format with
  | none => ⟨Except.error (Err.UnrecognizedFormat format), 0, st⟩
  | some vc =>
    match mhLookup mhtype with
    | none => ⟨Except.error (Err.UnrecognizedMhtype mhtype), 0, st⟩
    | some t =>
      match prefixSum ⟨vc.1, vc.2, t, mhlen⟩ data with
      | Except.error e => ⟨Except.error e, 0, st⟩
      | Except.ok c => ⟨Except.ok c, 1, st.add c data⟩

/-- Hash function code of a successful put run (observation helper). -/
def putMhType (r : PutOut) : Option Nat := okMhType r.result

/-- Result of `getBlockForKey` (block.go lines 211-233) together with
the bookkeeping bit recording whether the underlying block store was
queried (`n.Blocks.GetBlock`). -/
structure KeyGetOut where
  result : Except Err (Cid × List Nat)
  storeQueried : Bool
deriving DecidableEq

/-- The `getBlockForKey` helper shared by `block get` and `block stat`
(block.go lines 211-233): a zero-length key fails immediately
("zero length cid invalid"), then the key is decoded to a CID by the
injected decoder (`cid.Decode`), and only then is the block store
queried. -/
def getBlockForKey (decode : String → Option Cid) (st : Store)
    (skey : String) : KeyGetOut :=
  if skey.length = 0 then ⟨Except.error Err.EmptyKey, false⟩
  else
    match decode skey with
    | none => ⟨Except.error (Err.DecodeError skey), false⟩
    | some c =>
      match st.lookup c with
      | none => ⟨Except.error Err.NotFound, true⟩
      | some data => ⟨Except.ok (c, data), true⟩

/-- Output record of `block stat` (`BlockStat` in block.go lines
20-23): the rendered key and the size of the block in bytes. -/
structure BlockStat where
  Key : String
  Size : Nat
deriving DecidableEq

/-- The `Run` of `blockGetCmd` (block.go lines 90-98): fetch the block
for the first argument and emit its raw data. -/
def blockGetRun (decode : String → Option Cid) (st : Store)
    (key : String) : Except Err (List Nat) × Bool :=
  match getBlockForKey decode st key with
  | ⟨Except.error e, q⟩ => (Except.error e, q)
  | ⟨Except.ok b, q⟩ => (Except.ok b.2, q)

/-- The `Run` of `blockStatCmd` (block.go lines 63-74): fetch the block
for the first argument and emit a `BlockStat` of its rendered
identifier (`b.Cid().String()`, rendering injected) and data length. -/
def blockStatRun (decode : String → Option Cid) (showCid : Cid → String)
    (st : Store) (key : String) : Except Err BlockStat × Bool :=
  match getBlockForKey decode st key with
  | ⟨Except.error e, q⟩ => (Except.error e, q)
  | ⟨Except.ok b, q⟩ => (Except.ok ⟨showCid b.1, b.2.length⟩, q)

/-- Reason attached to a skipped removal outcome. -/
inductive Reason where
  | pinned
  | notFound
deriving DecidableEq

/-- One removal outcome per requested identifier (`RemovedBlock` of
blockstore/util rendered as the spec's RemovalOutcome). -/
inductive Outcome where
  | Removed (c : Cid)
  | Skipped (c : Cid) (r : Reason)
deriving DecidableEq

/-- Whether an outcome is a pinned skip. -/
def isSkippedPinned : Outcome → Bool
  | Outcome.Skipped _ Reason.pinned => true
  | _ => false

/-- Modelled from the spec: the per-identifier step of
`util.RmBlocks` (blockstore/util, not under src/), spec section 4.3:
a pinned identifier with `force` unset is skipped without touching the
store; an absent identifier with `force` unset yields an error outcome
(skip with reason not-found); otherwise the block is deleted and a
Removed outcome emitted — under `force`, pinned and absent identifiers
take this success path. -/
def removeOne (pinned : Cid → Bool) (force : Bool) (st : Store) (c : Cid) :
    Outcome × Store :=
  if pinned c && !force then (Outcome.Skipped c Reason.pinned, st)
  else if !(st.contains c) && !force then (Outcome.Skipped c Reason.notFound, st)
  else (Outcome.Removed c, st.delete c)

/-- Modelled from the spec: `removeMany` of the RemovalPipeline
(`util.RmBlocks`, not under src/), spec section 4.3: each identifier is
handled independently in sequence, producing exactly one outcome per
input identifier; `quiet` does not change which identifiers are removed
(it only suppresses rendering detail). -/
def removeMany (pinned : Cid → Bool) (force quiet : Bool) :
    Store → List Cid → List Outcome × Store
  | st, [] => ([], st)
  | st, c :: rest =>
    let p := removeOne pinned force st c
    let r := removeMany pinned force quiet p.2 rest
    (p.1 :: r.1, r.2)

/-- The up-front decoding loop of `blockRmCmd.Run` (block.go lines
259-268): every argument is decoded before the removal pipeline starts,
and the first failure aborts the whole request with "invalid content
id". -/
def decodeAll (decode : String → Option Cid) : List String → Except Err (List Cid)
  | [] => Except.ok []
  | h :: t =>
    match decode h with
    | none => Except.error (Err.InvalidContentId h)
    | some c =>
      match decodeAll decode t with
      | Except.error e => Except.error e
      | Except.ok cs => Except.ok (c :: cs)

/-- Observable outcome of one `block rm` run: the hard error if any,
the emitted removal outcomes, and the store afterwards. -/
structure RmOut where
  err : Option Err
  outcomes : List Outcome
  store : Store
deriving DecidableEq

/-- The `Run` of `blockRmCmd` (block.go lines 250-286): decode all
arguments up front — a failure aborts before the pipeline starts — then
hand the decoded identifiers to the removal pipeline. -/
def blockRmRun (decode : String → Option Cid) (pinned : Cid → Bool)
    (st : Store) (hashes : List String) (force quiet : Bool) : RmOut :=
  match decodeAll decode hashes with
  | Except.error e => ⟨some e, [], st⟩
  | Except.ok cids =>
    let r := removeMany pinned force quiet st cids
    ⟨none, r.1, r.2⟩

/-- The progress-bar threshold of the cat command
(`progressBarMinSize = 1024 * 1024 * 8`). -/
def progressBarMinSize : Nat := 1024 * 1024 * 8

/-- The CLI `PostRun` guard of `CatCmd`: the response is returned
untouched when `res.Length() < progressBarMinSize`, and otherwise the
payload reader is wrapped in the progress-annotated transform. -/
def progressApplied (length : Nat) : Bool :=
  if length < progressBarMinSize then false else true

/-- The loop of the `cat` helper of the cat command: each path is
resolved by the injected path-resolution collaborator (`coreunix.Cat`)
to a reader (bytes) and declared size; the first failure aborts with
that error; otherwise the reader is appended in path order and the
declared size added to the running `uint64` total. -/
def catLoop (resolver : String → Except Err (List Nat × Nat)) :
    List String → List (List Nat) → Nat → Except Err (List (List Nat) × Nat)
  | [], readers, length => Except.ok (readers, length)
  | fpath :: rest, readers, length =>
    match resolver fpath with
    | Except.error e => Except.error e
    | Except.ok rd => catLoop resolver rest (readers ++ [rd.1]) ((length + rd.2) % 2 ^ 64)

/-- The `cat` helper of the cat command (readers accumulated from an
empty list, length from 0). -/
def cat (resolver : String → Except Err (List Nat × Nat)) (paths : List String) :
    Except Err (List (List Nat) × Nat) :=
  catLoop resolver paths [] 0

/-- Observable outcome of one cat command run: the error if any, the
length declared by `re.SetLength` if reached, and the payload bytes
emitted through the `io.MultiReader` over the accumulated readers. -/
structure CatOut where
  err : Option Err
  lengthDeclared : Option Nat
  emitted : List Nat
deriving DecidableEq

/-- The `Run` of `CatCmd`: on a `cat` error the request fails before
any length is declared or byte emitted; on success the summed length is
declared and the readers' bytes are emitted concatenated in path
order. -/
def catCmdRun (resolver : String → Except Err (List Nat × Nat))
    (paths : List String) : CatOut :=
  match cat resolver paths with
  | Except.error e => ⟨some e, none, []⟩
  | Except.ok r => ⟨none, some r.2, r.1.flatten⟩

lemma lookupBlocks_deleteBlocks (c c' : Cid) (l : List (Cid × List Nat)) :
    lookupBlocks c (deleteBlocks c' l) = if c = c' then none else lookupBlocks c l := by
  induction l with
  | nil => simp [lookupBlocks, deleteBlocks]
  | cons p t ih =>
    by_cases h1 : p.1 = c'
    · by_cases h2 : c = c'
      · simp [deleteBlocks, h1, h2] at ih ⊢; exact ih
      · have hpc : ¬ c' = c := fun hh => h2 hh.symm
        simp [deleteBlocks, lookupBlocks, h1, h2, hpc] at ih ⊢; exact ih
    · by_cases h2 : p.1 = c
      · have hc : ¬ c = c' := fun hh => h1 (h2.symm ▸ hh)
        simp [deleteBlocks, lookupBlocks, h1, h2, hc]
      · simp [deleteBlocks, lookupBlocks, h1, h2] at ih ⊢; exact ih

lemma lookup_delete (st : Store) (c c' : Cid) :
    (st.delete c').lookup c = if c = c' then none else st.lookup c := by
  obtain ⟨l⟩ := st
  simpa [Store.delete, Store.lookup] using lookupBlocks_deleteBlocks c c' l

lemma contains_delete (st : Store) (c c' : Cid) :
    (st.delete c').contains c = if c = c' then false else st.contains c := by
  by_cases h : c = c' <;> simp [Store.contains, lookup_delete, h]

lemma hashFull_length (t : Nat) (data : List Nat) :
    (hashFull t data).length = mhNatural t := by
  simp [hashFull]

/-- C1 (evaluation of the code at the boundary): the CLI progress guard
skips the progress-annotated transform only for declared lengths
strictly below `progressBarMinSize`, so a payload of exactly 8 MiB
(8388608 bytes) does trigger progress annotation, one byte over
triggers it, and one byte under does not — the condition is effectively
`>=`, contradicting the claim (and the source's own comment, which says
the bar is shown for outputs strictly over 8 MiB). -/
theorem progress_threshold_behavior :
    progressApplied 8388608 = true ∧ progressApplied 8388609 = true ∧
    progressApplied 8388607 = false := by
  decide

/-- C5: for the zero-length identifier string, both the get and the
stat operations fail with the EmptyKey input error, and the underlying
block store is never queried — for every decoder, renderer and store. -/
theorem empty_key_never_reaches_store (decode : String → Option Cid)
    (showCid : Cid → String) (st : Store) :
    blockGetRun decode st "" = (Except.error Err.EmptyKey, false) ∧
    blockStatRun decode showCid st "" = (Except.error Err.EmptyKey, false) := by
  constructor <;> rfl

/-- C8: for every format string outside v0/raw/cbor/protobuf, and for
every hash-function name missing from the fixed registry, the put
operation fails with an input error with zero digest computations
performed and the store left unchanged. -/
theorem put_rejects_unknown_format_or_hash (format mhtype : String)
    (mhlen : Int) (data : List Nat) (st : Store)
    (h : format ∉ (["v0", "raw", "cbor", "protobuf"] : List String) ∨
      mhLookup mhtype = none) :
    ∃ e, blockPutRun format mhtype mhlen data st = ⟨Except.error e, 0, st⟩ := by
  rcases h with hf | hm
  · have hs : formatSwitch format = none := by
      simp only [List.mem_cons, List.not_mem_nil, or_false, not_or] at hf
      obtain ⟨h1, h2, h3, h4⟩ := hf
      simp [formatSwitch, h1, h2, h3, h4]
    exact ⟨Err.UnrecognizedFormat format, by simp [blockPutRun, hs]⟩
  · cases hs : formatSwitch format with
    | none => exact ⟨Err.UnrecognizedFormat format, by simp [blockPutRun, hs]⟩
    | some vc => exact ⟨Err.UnrecognizedMhtype mhtype, by simp [blockPutRun, hs, hm]⟩

/-- C8 witness: an unrecognized format string is rejected with the
store untouched and no digest computed. -/
theorem put_rejects_unknown_format_or_hash_witness :
    ∃ e, blockPutRun "bogus" "sha2-256" (-1) [] ⟨[]⟩ = ⟨Except.error e, 0, ⟨[]⟩⟩ :=
  put_rejects_unknown_format_or_hash "bogus" "sha2-256" (-1) [] ⟨[]⟩
    (Or.inl (by decide))

lemma decodeAll_error_of_mem {decode : String → Option Cid} :
    ∀ {hashes : List String}, (∃ x ∈ hashes, decode x = none) →
    ∃ e, decodeAll decode hashes = Except.error e := by
  intro hashes h
  induction hashes with
  | nil => simp at h
  | cons a t ih =>
    cases hq : decode a with
    | none => exact ⟨Err.InvalidContentId a, by simp [decodeAll, hq]⟩
    | some c =>
      obtain ⟨x, hx, hdx⟩ := h
      have hxt : x ∈ t := by
        rcases List.mem_cons.1 hx with rfl | hmem
        · rw [hq] at hdx; cases hdx
        · exact hmem
      obtain ⟨e, he⟩ := ih ⟨x, hxt, hdx⟩
      exact ⟨e, by simp [decodeAll, hq, he]⟩

/-- C9: if any argument to the bulk remove fails to decode as a CID,
the whole request fails with an input error, no outcome is produced,
and the store is left unchanged — the well-formed identifiers are not
removed either. -/
theorem rm_malformed_cid_aborts_upfront (decode : String → Option Cid)
    (pinned : Cid → Bool) (st : Store) (hashes : List String)
    (force quiet : Bool) (h : ∃ x ∈ hashes, decode x = none) :
    ∃ e, blockRmRun decode pinned st hashes force quiet = ⟨some e, [], st⟩ := by
  obtain ⟨e, he⟩ := decodeAll_error_of_mem h
  exact ⟨e, by simp [blockRmRun, he]⟩

/-- C9 witness: one malformed argument aborts a remove request over a
well-formed and a malformed identifier before anything is deleted. -/
theorem rm_malformed_cid_aborts_upfront_witness :
    ∃ e, blockRmRun (fun _ => none) (fun _ => false) ⟨[]⟩ ["QmBad"] false false =
      ⟨some e, [], ⟨[]⟩⟩ :=
  rm_malformed_cid_aborts_upfront (fun _ => none) (fun _ => false) ⟨[]⟩
    ["QmBad"] false false ⟨"QmBad", by simp, rfl⟩

lemma catLoop_error_of_first {resolver : String → Except Err (List Nat × Nat)}
    {p : String} {e : Err} (hp : resolver p = Except.error e) :
    ∀ (pre : List String), (∀ q ∈ pre, ∃ c, resolver q = Except.ok c) →
    ∀ (post : List String) (readers : List (List Nat)) (length : Nat),
    catLoop resolver (pre ++ p :: post) readers length = Except.error e := by
  intro pre
  induction pre with
  | nil => intro _ post readers length; simp [catLoop, hp]
  | cons q t ih =>
    intro hok post readers length
    obtain ⟨c, hc⟩ := hok q (by simp)
    have ht : ∀ r ∈ t, ∃ c, resolver r = Except.ok c := fun r hr => hok r (by simp [hr])
    simp only [List.cons_append, catLoop, hc]
    exact ih ht post _ _

/-- C10: if resolving any path of a multi-path cat request fails — all
paths before it resolving successfully — the whole request fails with
that error, no length is declared, and no payload byte is emitted,
including the bytes of the paths that resolved before the failing
one. -/
theorem cat_resolution_failure_aborts
    (resolver : String → Except Err (List Nat × Nat))
    (pre : List String) (p : String) (post : List String) (e : Err)
    (hpre : ∀ q ∈ pre, ∃ c, resolver q = Except.ok c)
    (hp : resolver p = Except.error e) :
    catCmdRun resolver (pre ++ p :: post) = ⟨some e, none, []⟩ := by
  have h := catLoop_error_of_first hp pre hpre post [] 0
  simp [catCmdRun, cat, h]

/-- C10 witness: with the first path resolvable and the second failing,
the combined request fails with the second path's error and emits
nothing. -/
theorem cat_resolution_failure_aborts_witness :
    catCmdRun
      (fun q => if q = "a" then Except.ok ([10, 11], 2)
        else Except.error (Err.ResolveFailed q))
      (["a"] ++ "b" :: ["c"]) = ⟨some (Err.ResolveFailed "b"), none, []⟩ :=
  cat_resolution_failure_aborts
    (fun q => if q = "a" then Except.ok ([10, 11], 2)
      else Except.error (Err.ResolveFailed q))
    ["a"] "b" ["c"] (Err.ResolveFailed "b")
    (by
      intro q hq
      simp only [List.mem_singleton] at hq
      exact ⟨([10, 11], 2), by rw [hq]; decide⟩)
    (by decide)

lemma mhLookup_cases (mhtype : String) (t : Nat) (h : mhLookup mhtype = some t) :
    t = mhSHA1 ∨ t = mhSHA2_256 ∨ t = mhSHA2_512 := by
  unfold mhLookup at h
  split_ifs at h
  · exact Or.inl (Option.some.inj h).symm
  · exact Or.inr (Or.inl (Option.some.inj h).symm)
  · exact Or.inr (Or.inr (Option.some.inj h).symm)

lemma mhNatural_pos_of_lookup (mhtype : String) (t : Nat)
    (h : mhLookup mhtype = some t) : mhNatural t ≠ 0 := by
  rcases mhLookup_cases mhtype t h with ht | ht | ht <;>
    simp [mhNatural, ht, mhSHA1, mhSHA2_256, mhSHA2_512]

/-- C2 counterexample: putting with format "v0" and the explicitly
supplied registered hash function "sha1" succeeds and produces an
identifier whose hash function is sha1, not the default sha2-256 — so
a version-0 put does not use the default hash function regardless of
the caller's hash-function option. -/
theorem v0_hash_override_counterexample :
    putMhType (blockPutRun "v0" "sha1" (-1) [1, 2, 3] ⟨[]⟩) = some mhSHA1 ∧
    mhSHA1 ≠ mhSHA2_256 := by
  decide

/-- C2 (amended): for format "v0" (version 0) and every input byte
sequence, the put operation produces an identifier with version 0 and
codec dag-protobuf regardless of the caller's options, while the hash
function of the identifier is the one the caller's mhtype option
selects in the registry (the default option value being sha2-256) — an
explicit hash-function override is honored, not ignored. -/
theorem v0_forces_codec_not_hash (mhtype : String) (t : Nat) (data : List Nat)
    (st : Store) (h : mhLookup mhtype = some t) :
    ∃ c, (blockPutRun "v0" mhtype (-1) data st).result = Except.ok c ∧
      c.version = 0 ∧ c.codec = DagProtobuf ∧ c.mhType = t := by
  have hf : formatSwitch "v0" = some (0, DagProtobuf) := by decide
  have hnat : mhNatural t ≠ 0 := mhNatural_pos_of_lookup mhtype t h
  have hps : prefixSum ⟨0, DagProtobuf, t, -1⟩ data =
      Except.ok ⟨0, DagProtobuf, t,
        (hashFull t data).take ((mhNatural t : Int)).toNat⟩ := by
    have hg : ¬((mhNatural t : Int) < 0 ∨ (mhNatural t : Int) < (mhNatural t : Int)) := by
      omega
    unfold prefixSum
    simp [hnat, hg]
  refine ⟨⟨0, DagProtobuf, t, (hashFull t data).take ((mhNatural t : Int)).toNat⟩,
    ?_, rfl, rfl, rfl⟩
  simp [blockPutRun, hf, h, hps]

/-- C2 witness: with the default mhtype option "sha2-256" a v0 put
yields a version-0, dag-protobuf, sha2-256 identifier. -/
theorem v0_forces_codec_not_hash_witness :
    ∃ c, (blockPutRun "v0" "sha2-256" (-1) [1, 2, 3] ⟨[]⟩).result = Except.ok c ∧
      c.version = 0 ∧ c.codec = DagProtobuf ∧ c.mhType = mhSHA2_256 :=
  v0_forces_codec_not_hash "sha2-256" mhSHA2_256 [1, 2, 3] ⟨[]⟩ (by decide)

/-- C7: building with the sentinel hash length -1 yields exactly the
identifier built with the hash function's natural digest length, for
every template and input; and a successful build with any
non-sentinel length has a digest of exactly that length (the supplied
length is used verbatim). -/
theorem build_sentinel_length (p : CidPrefix) (data : List Nat) :
    prefixSum { p with MhLength := -1 } data =
      prefixSum { p with MhLength := (mhNatural p.MhType : Int) } data ∧
    (p.MhLength ≠ -1 → okDigestLength (prefixSum p data) ≠ none →
      okDigestLength (prefixSum p data) = some p.MhLength.toNat) := by
  constructor
  · unfold prefixSum
    simp
  · intro hl hok
    by_cases h1 : p.Version ≠ 0 ∧ p.Version ≠ 1
    · simp [prefixSum, h1, okDigestLength] at hok
    · by_cases h2 : mhNatural p.MhType = 0
      · simp [prefixSum, h1, h2, okDigestLength] at hok
      · by_cases h3 : p.MhLength < 0 ∨ (mhNatural p.MhType : Int) < p.MhLength
        · simp [prefixSum, h1, h2, hl, h3, okDigestLength] at hok
        · push_neg at h3
          have hle : p.MhLength.toNat ≤ mhNatural p.MhType := by omega
          have hg3 : ¬(p.MhLength < 0 ∨ (mhNatural p.MhType : Int) < p.MhLength) := by
            omega
          by_cases h4 : p.Version = 0
          · simp [prefixSum, h1, h2, hl, hg3, h4, okDigestLength,
              List.length_take, hashFull_length, min_eq_left hle]
          · have h5 : p.Version = 1 := by omega
            simp [prefixSum, h1, h2, hl, hg3, h4, h5, okDigestLength,
              List.length_take, hashFull_length, min_eq_left hle]

/-- C7 witness: for a version-1 raw template over sha2-256 the
sentinel build equals the natural-length (32) build, and a build with
supplied length 16 has a 16-byte digest. -/
theorem build_sentinel_length_witness :
    prefixSum ⟨1, Raw, mhSHA2_256, -1⟩ [5] = prefixSum ⟨1, Raw, mhSHA2_256, 32⟩ [5] ∧
    okDigestLength (prefixSum ⟨1, Raw, mhSHA2_256, 16⟩ [5]) = some ((16 : Int).toNat) := by
  constructor
  · have h := (build_sentinel_length ⟨1, Raw, mhSHA2_256, 7⟩ [5]).1
    simpa [mhNatural, mhSHA1, mhSHA2_256, mhSHA2_512] using h
  · exact (build_sentinel_length ⟨1, Raw, mhSHA2_256, 16⟩ [5]).2 (by decide) (by decide)

lemma removeOne_force (pinned : Cid → Bool) (st : Store) (c : Cid) :
    removeOne pinned true st c = (Outcome.Removed c, st.delete c) := by
  simp [removeOne]

lemma removeMany_contains_false (pinned : Cid → Bool) (force quiet : Bool) :
    ∀ (cids : List Cid) (st : Store) (c : Cid), st.contains c = false →
    (removeMany pinned force quiet st cids).2.contains c = false := by
  intro cids
  induction cids with
  | nil => intro st c h; simpa [removeMany] using h
  | cons d rest ih =>
    intro st c h
    have hstep : ((removeOne pinned force st d).2).contains c = false := by
      unfold removeOne
      split_ifs
      · exact h
      · exact h
      · rw [contains_delete]
        by_cases hc : c = d <;> simp [hc, h]
    simpa [removeMany] using ih ((removeOne pinned force st d).2) c hstep

/-- C3: with force set, the bulk remove handles every identifier —
one outcome per input, each a success (Removed) outcome, no hard
failure — and every requested identifier, pinned or not, is absent
from the store afterwards. -/
theorem removeMany_force_removes_all (pinned : Cid → Bool) (quiet : Bool)
    (st : Store) (cids : List Cid) :
    (removeMany pinned true quiet st cids).1.length = cids.length ∧
    (∀ o ∈ (removeMany pinned true quiet st cids).1, ∃ c, o = Outcome.Removed c) ∧
    (∀ c ∈ cids, (removeMany pinned true quiet st cids).2.contains c = false) := by
  induction cids generalizing st with
  | nil => simp [removeMany]
  | cons d rest ih =>
    obtain ⟨ih1, ih2, ih3⟩ := ih (st.delete d)
    refine ⟨?_, ?_, ?_⟩
    · simp [removeMany, removeOne_force, ih1]
    · intro o ho
      simp [removeMany, removeOne_force] at ho
      rcases ho with ho | ho
      · exact ⟨d, ho⟩
      · exact ih2 o ho
    · intro c hc
      rcases List.mem_cons.1 hc with rfl | hc
      · simp only [removeMany, removeOne_force]
        apply removeMany_contains_false
        rw [contains_delete]
        simp
      · simpa [removeMany, removeOne_force] using ih3 c hc

/-- C4: with force unset, the bulk remove yields exactly one outcome
per input identifier (no identifier's failure aborts the rest), the
pinned-skip outcomes are exactly as many as the pinned inputs, and
every pinned identifier's store entry is left untouched (so pinned
blocks remain present afterwards). -/
theorem removeMany_noforce_isolation (pinned : Cid → Bool) (quiet : Bool)
    (st : Store) (cids : List Cid) :
    (removeMany pinned false quiet st cids).1.length = cids.length ∧
    (removeMany pinned false quiet st cids).1.countP isSkippedPinned =
      cids.countP (fun c => pinned c) ∧
    (∀ c, pinned c = true →
      (removeMany pinned false quiet st cids).2.lookup c = st.lookup c) := by
  induction cids generalizing st with
  | nil => simp [removeMany]
  | cons d rest ih =>
    by_cases hp : pinned d = true
    · have hro : removeOne pinned false st d = (Outcome.Skipped d Reason.pinned, st) := by
        simp [removeOne, hp]
      obtain ⟨ih1, ih2, ih3⟩ := ih st
      refine ⟨?_, ?_, ?_⟩
      · simp [removeMany, hro, ih1]
      · simp [removeMany, hro, List.countP_cons, isSkippedPinned, hp, ih2]
      · intro c hc
        simpa [removeMany, hro] using ih3 c hc
    · by_cases hcont : st.contains d = true
      · have hro : removeOne pinned false st d = (Outcome.Removed d, st.delete d) := by
          simp [removeOne, hp, hcont]
        obtain ⟨ih1, ih2, ih3⟩ := ih (st.delete d)
        refine ⟨?_, ?_, ?_⟩
        · simp [removeMany, hro, ih1]
        · simp [removeMany, hro, List.countP_cons, isSkippedPinned, hp, ih2]
        · intro c hc
          have hne : ¬ c = d := fun hh => hp (hh ▸ hc)
          have := ih3 c hc
          rw [lookup_delete] at this
          simpa [removeMany, hro, hne] using this
      · have hro : removeOne pinned false st d =
            (Outcome.Skipped d Reason.notFound, st) := by
          have hcf : st.contains d = false := by
            cases hcb : st.contains d
            · rfl
            · exact absurd hcb hcont
          simp [removeOne, hp, hcf]
        obtain ⟨ih1, ih2, ih3⟩ := ih st
        refine ⟨?_, ?_, ?_⟩
        · simp [removeMany, hro, ih1]
        · simp [removeMany, hro, List.countP_cons, isSkippedPinned, hp, ih2]
        · intro c hc
          simpa [removeMany, hro] using ih3 c hc

lemma catLoop_ok_of_forall {resolver : String → Except Err (List Nat × Nat)} :
    ∀ {paths : List String} {contents : List (List Nat × Nat)},
    List.Forall₂ (fun p c => resolver p = Except.ok c) paths contents →
    ∀ (readers : List (List Nat)) (length : Nat),
    length + (contents.map Prod.snd).sum < 2 ^ 64 →
    catLoop resolver paths readers length =
      Except.ok (readers ++ contents.map Prod.fst,
        length + (contents.map Prod.snd).sum) := by
  intro paths contents hf
  induction hf with
  | nil => intro readers length hlt; simp [catLoop]
  | @cons a b l1 l2 h1 h2 ih =>
    intro readers length hlt
    simp only [List.map_cons, List.sum_cons] at hlt
    have hb : length + b.2 < 2 ^ 64 := by omega
    have hrec := ih (readers ++ [b.1]) (length + b.2) (by omega)
    simp only [catLoop, h1]
    rw [Nat.mod_eq_of_lt hb, hrec]
    simp [List.append_assoc, Nat.add_assoc]

/-- C6: for every list of paths that all resolve, with declared sizes
summing below 2^64, the cat run declares the sum of the components'
declared sizes as the total payload length and emits the components'
bytes concatenated in path order. -/
theorem cat_concat_in_order (resolver : String → Except Err (List Nat × Nat))
    (paths : List String) (contents : List (List Nat × Nat))
    (hres : List.Forall₂ (fun p c => resolver p = Except.ok c) paths contents)
    (hsum : (contents.map Prod.snd).sum < 2 ^ 64) :
    catCmdRun resolver paths =
      ⟨none, some ((contents.map Prod.snd).sum),
        (contents.map Prod.fst).flatten⟩ := by
  have h := catLoop_ok_of_forall hres [] 0 (by simpa using hsum)
  simp only [List.nil_append, Nat.zero_add] at h
  simp [catCmdRun, cat, h]

/-- C6 witness: two resolvable paths of declared sizes 2 and 1 yield a
response of declared length 3 with the bytes in path order. -/
theorem cat_concat_in_order_witness :
    catCmdRun
      (fun q => if q = "a" then Except.ok ([10, 11], 2)
        else if q = "b" then Except.ok ([12], 1)
        else Except.error (Err.ResolveFailed q))
      ["a", "b"] = ⟨none, some 3, [10, 11, 12]⟩ := by
  have h := cat_concat_in_order
    (fun q => if q = "a" then Except.ok ([10, 11], 2)
      else if q = "b" then Except.ok ([12], 1)
      else Except.error (Err.ResolveFailed q))
    ["a", "b"] [([10, 11], 2), ([12], 1)]
    (List.Forall₂.cons (by decide) (List.Forall₂.cons (by decide) List.Forall₂.nil))
    (by norm_num)
  simpa using h

end GoIpfs
